import Mathlib

/-!
Shallow embedding of the voiceover studio client component
(src/unnamed/part_000).  The component couples a script editor with a
speech-synthesis preview controller and a microphone recording booth.

Numbers are modelled exactly: millisecond timestamps and durations are
natural numbers respectively integers, and the rate slider value is a
rational.  The browser allocator URL.createObjectURL is modelled by a
counter producing distinct handle strings, and URL.revokeObjectURL by a
log of released handles.  The React effect whose dependency array is the
recordings list is modelled operationally: its cleanup closure captures
the recordings array it was registered with, and the cleanup runs again
whenever a state update replaced the recordings array, as well as at
unmount.
-/

/-- Whitespace in the sense of the ECMAScript WhiteSpace and LineTerminator
productions: the character set removed by String.prototype.trim and matched
by the space class in the split regular expression of the source. -/
def jsIsSpace (c : Char) : Bool :=
  c = ' ' || c = '\t' || c = '\n' || c = '\r' ||
  c = Char.ofNat 0x0B || c = Char.ofNat 0x0C || c = Char.ofNat 0xA0 ||
  c = Char.ofNat 0x1680 ||
  (0x2000 ≤ c.toNat && c.toNat ≤ 0x200A) ||
  c = Char.ofNat 0x2028 || c = Char.ofNat 0x2029 ||
  c = Char.ofNat 0x202F || c = Char.ofNat 0x205F ||
  c = Char.ofNat 0x3000 || c = Char.ofNat 0xFEFF

/-- Model of String.prototype.trim on the character list of a string:
drop leading and trailing whitespace. -/
def trimChars (cs : List Char) : List Char :=
  ((cs.dropWhile jsIsSpace).reverse.dropWhile jsIsSpace).reverse

/-- Number of maximal runs of non-whitespace characters.  The flag records
whether the scan is currently inside such a run.  On a string with no
leading and no trailing whitespace this is the length of the array
returned by splitting the string on runs of whitespace, which is how the
source uses it (it always splits the trimmed script). -/
def countTokensAux : Bool → List Char → Nat
  | _, [] => 0
  | inTok, c :: cs =>
    if jsIsSpace c then countTokensAux false cs
    else (if inTok then 0 else 1) + countTokensAux true cs

/-- Token count of a character list, starting outside any token. -/
def countTokens (cs : List Char) : Nat := countTokensAux false cs

/-- The wordCount memo of the source: 0 when the trimmed script is empty
(the empty string is falsy), otherwise the length of the trimmed script
split on runs of whitespace. -/
def wordCount (script : String) : Nat :=
  if trimChars script.data = [] then 0
  else countTokens (trimChars script.data)

/-- ECMAScript number results relevant to the estimated-seconds expression,
with finite values modelled as exact rationals. -/
inductive JsNum where
  | fin (q : ℚ)
  | posInf
  | negInf
  | nan
deriving DecidableEq

/-- Division as in ECMAScript: a finite quotient when the divisor is
nonzero, a signed infinity for a nonzero numerator over zero, and NaN for
zero over zero. -/
def jsDiv (a b : ℚ) : JsNum :=
  if b = 0 then
    if a = 0 then JsNum.nan
    else if 0 < a then JsNum.posInf
    else JsNum.negInf
  else JsNum.fin (a / b)

/-- The logical-or-with-zero guard of the source expression: a falsy left
operand (zero or NaN) yields 0, anything else is returned unchanged; in
particular an infinity is truthy and passes through. -/
def orZero (x : JsNum) : JsNum :=
  match x with
  | JsNum.fin q => if q = 0 then JsNum.fin 0 else JsNum.fin q
  | JsNum.nan => JsNum.fin 0
  | y => y

/-- toFixed(1) on a nonnegative rational: the nearest multiple of one
tenth, ties resolved toward the larger value as the ECMAScript algorithm
prescribes, printed with one digit after the point. -/
def toFixed1Pos (q : ℚ) : String :=
  let n : Nat := (Int.floor (q * 10 + 1 / 2)).toNat
  toString (n / 10) ++ "." ++ toString (n % 10)

/-- toFixed(1) on a rational: the sign is handled separately, as in the
ECMAScript algorithm. -/
def toFixed1Q (q : ℚ) : String :=
  if q < 0 then "-" ++ toFixed1Pos (-q) else toFixed1Pos q

/-- toFixed(1) on a JsNum value; nonfinite values print their names. -/
def toFixed1 (x : JsNum) : String :=
  match x with
  | JsNum.fin q => toFixed1Q q
  | JsNum.posInf => "Infinity"
  | JsNum.negInf => "-Infinity"
  | JsNum.nan => "NaN"

/-- The estimated-seconds display of the hero card: word count divided by
rate, guarded by logical or with zero, then toFixed(1). -/
def estSecs (wc : Nat) (rate : ℚ) : String :=
  toFixed1 (orZero (jsDiv (wc : ℚ) rate))

/-- Modelled from the claim wording, for comparison with estSecs: the word
count divided by the rate, taken to be 0 when the rate is 0, formatted to
one decimal place. -/
def claimedEstSecs (wc : Nat) (rate : ℚ) : String :=
  toFixed1Q (if rate = 0 then 0 else (wc : ℚ) / rate)

/-- padStart(2, zero) from the source: pad the string on the left with the
zero digit until it has at least two characters. -/
def padStart2 (str : String) : String :=
  if 2 ≤ str.length then str
  else if str.length = 1 then "0" ++ str
  else "00"

/-- The formattedDuration helper of the source: clamp the rounded number
of seconds at zero, then print minutes and zero-padded seconds.  Rounding
of ms / 1000 half toward positive infinity is expressed over the integers
as the floor of (2 * ms + 1000) / 2000. -/
def formattedDuration (ms : Int) : String :=
  let totalSeconds : Nat := (max 0 ((2 * ms + 1000).fdiv 2000)).toNat
  toString (totalSeconds / 60) ++ ":" ++ padStart2 (toString (totalSeconds % 60))

/-- Mathematical rounding of d / 1000 to the nearest integer, half toward
positive infinity, stated over the rationals; this is the rounding the
claims refer to. -/
def specRoundSec (d : Int) : Int := Int.floor ((d : ℚ) / 1000 + 1 / 2)

/-- A completed take: identifier, playable object URL, creation timestamp
and duration in milliseconds. -/
structure Recording where
  id : String
  url : String
  createdAt : Nat
  duration : Nat
deriving DecidableEq

/-- State of the recording booth controller, together with the parts of
the environment the claims observe: the URL allocator counter, the log of
revoked URLs, the recordings array captured by the currently registered
effect cleanup, and a flag recording whether setRecordings replaced the
recordings array since the effect last ran. -/
structure Studio where
  recordings : List Recording
  isRecording : Bool
  recordStart : Option Nat
  audioChunks : List Nat
  urlCounter : Nat
  revoked : List String
  effectCaptured : List Recording
  dirty : Bool
  recordingSupported : Bool
deriving DecidableEq

/-- Initial state at mount: no recordings, not recording, the effect has
run once capturing the empty recordings array. -/
def initStudio : Studio :=
  { recordings := []
    isRecording := false
    recordStart := none
    audioChunks := []
    urlCounter := 0
    revoked := []
    effectCaptured := []
    dirty := false
    recordingSupported := true }

/-- The stop handler of the media recorder (recorder.onstop in the
source): compute the duration from the start timestamp if it is truthy
(0 otherwise), allocate an object URL for the assembled blob, prepend a
new Recording whose identifier and creation time are the current
timestamp, and clear the chunk buffer and the start timestamp.  The
single parameter now stands for the Date.now() calls of the handler. -/
def recorderOnStop (now : Nat) (s : Studio) : Studio :=
  let durationMs : Nat :=
    match s.recordStart with
    | some t => if t != 0 then now - t else 0
    | none => 0
  let url := "blob:" ++ toString s.urlCounter
  { s with
    recordings :=
      { id := toString now, url := url, createdAt := now, duration := durationMs }
        :: s.recordings
    urlCounter := s.urlCounter + 1
    audioChunks := []
    recordStart := none
    dirty := true }

/-- The toggleRecording handler: a no-op when recording is unsupported;
when idle it requests the microphone (micOk says whether the request
succeeds) and on success clears the chunk buffer, starts the recorder,
stores the start timestamp and sets the recording flag, while on failure
the error is only logged and the state is untouched; when recording it
stops the recorder and clears the recording flag (the stop event of the
recorder is a separate step, recorderOnStop). -/
def toggleRecording (micOk : Bool) (now : Nat) (s : Studio) : Studio :=
  if !s.recordingSupported then s
  else if !s.isRecording then
    if micOk then
      { s with audioChunks := [], recordStart := some now, isRecording := true }
    else s
  else
    { s with isRecording := false }

/-- The stopRecording operation of the specification, as realised by the
source: the branch of toggleRecording taken while the recording flag is
set, together with the stop event of the recorder that it triggers.  When
the flag is clear that branch is unreachable, so the operation leaves the
state unchanged. -/
def stopRecording (now : Nat) (s : Studio) : Studio :=
  if !s.recordingSupported then s
  else if !s.isRecording then s
  else recorderOnStop now { s with isRecording := false }

/-- The deleteRecording handler: look the identifier up in the recordings
list, revoke the URL of the entry found (if any), and keep exactly the
entries whose identifier differs.  The updater is always applied, so the
recordings array is replaced even when nothing matched. -/
def deleteRecording (id : String) (s : Studio) : Studio :=
  match s.recordings.find? (fun item => item.id == id) with
  | some target =>
    { s with
      revoked := s.revoked ++ [target.url]
      recordings := s.recordings.filter (fun item => item.id != id)
      dirty := true }
  | none =>
    { s with
      recordings := s.recordings.filter (fun item => item.id != id)
      dirty := true }

/-- The effect with dependency array containing the recordings list: after
a commit in which setRecordings replaced the array, React first runs the
previous cleanup closure, which revokes the URL of every recording in the
array it captured, and then registers a new cleanup capturing the current
array. -/
def effectSync (s : Studio) : Studio :=
  if s.dirty then
    { s with
      revoked := s.revoked ++ s.effectCaptured.map Recording.url
      effectCaptured := s.recordings
      dirty := false }
  else s

/-- Events driving the recording booth: a press of the toggle button (with
the outcome of the microphone request and the current time), the stop
event of the media recorder, and a press of a delete button. -/
inductive BoothEv where
  | toggle (micOk : Bool) (now : Nat)
  | stopEvent (now : Nat)
  | del (id : String)
deriving DecidableEq

/-- One step of the booth: apply the handler, then let React commit and
run the recordings effect when its dependency changed. -/
def boothStep (s : Studio) (e : BoothEv) : Studio :=
  effectSync
    (match e with
     | BoothEv.toggle micOk now => toggleRecording micOk now s
     | BoothEv.stopEvent now => recorderOnStop now s
     | BoothEv.del id => deleteRecording id s)

/-- Run the booth from the mounted initial state. -/
def runBooth (evs : List BoothEv) : Studio :=
  evs.foldl boothStep initStudio

/-- Final teardown of the view: the cleanup registered last runs one final
time, revoking the URL of every recording in the array it captured. -/
def unmountStudio (s : Studio) : Studio :=
  { s with
    revoked := s.revoked ++ s.effectCaptured.map Recording.url
    effectCaptured := [] }

/-- The event trace of the double-release scenario: record a first take
between times 1 and 2, a second take between times 10 and 12, then the
view unmounts. -/
def c1trace : List BoothEv :=
  [BoothEv.toggle true 1, BoothEv.toggle true 2, BoothEv.stopEvent 2,
   BoothEv.toggle true 10, BoothEv.toggle true 12, BoothEv.stopEvent 12]

/-- State of the speech preview controller together with the synthesis
queue of the platform: identifiers of utterances that were handed to the
platform and are neither cancelled nor finished, identifiers whose start
event fired, and identifiers whose end or error event fired. -/
structure SpeechState where
  supported : Bool
  speaking : Bool
  nextId : Nat
  pending : List Nat
  started : List Nat
  finished : List Nat
deriving DecidableEq

/-- The platform cancel operation: every queued or playing utterance is
discarded. -/
def synthCancel (s : SpeechState) : SpeechState :=
  { s with pending := [] }

/-- The platform speak operation: a fresh utterance is appended to the
synthesis queue. -/
def synthEnqueue (s : SpeechState) : SpeechState :=
  { s with pending := s.pending ++ [s.nextId], nextId := s.nextId + 1 }

/-- The speak handler of the source: a no-op when synthesis is unsupported
or the trimmed script is empty; otherwise it first cancels any in-flight
utterance and then hands a new utterance to the platform.  The speaking
flag is only written by the utterance event handlers. -/
def speak (script : String) (s : SpeechState) : SpeechState :=
  if !s.supported then s
  else if trimChars script.data = [] then s
  else synthEnqueue (synthCancel s)

/-- The cancelSpeech handler of the source: cancel the platform queue and
clear the speaking flag unconditionally. -/
def cancelSpeech (s : SpeechState) : SpeechState :=
  { synthCancel s with speaking := false }

/-- Events driving the preview controller: a press of the preview button
with the current script, a press of the stop button, and the start, end
and error events of an utterance. -/
inductive SpeechEv where
  | previewEv (script : String)
  | stopEv
  | startEv (u : Nat)
  | endEv (u : Nat)
  | errorEv (u : Nat)
deriving DecidableEq

/-- One step of the preview controller.  A start event fires only for an
utterance that is still queued and has not started or finished; it sets
the speaking flag.  An end event fires for a started unfinished utterance,
an error event for any created unfinished utterance (cancellation
surfaces as an error event); both remove the utterance from the queue and
clear the speaking flag, as the onend and onerror handlers do. -/
def speechStep (s : SpeechState) : SpeechEv → SpeechState
  | SpeechEv.previewEv script => speak script s
  | SpeechEv.stopEv => cancelSpeech s
  | SpeechEv.startEv u =>
    if u ∈ s.pending ∧ u ∉ s.started ∧ u ∉ s.finished then
      { s with started := u :: s.started, speaking := true }
    else s
  | SpeechEv.endEv u =>
    if u ∈ s.started ∧ u ∉ s.finished then
      { s with finished := u :: s.finished, pending := s.pending.erase u,
               speaking := false }
    else s
  | SpeechEv.errorEv u =>
    if u < s.nextId ∧ u ∉ s.finished then
      { s with finished := u :: s.finished, pending := s.pending.erase u,
               speaking := false }
    else s

/-- Initial state of the preview controller. -/
def initSpeech (sup : Bool) : SpeechState :=
  { supported := sup
    speaking := false
    nextId := 0
    pending := []
    started := []
    finished := [] }

/-- Run the preview controller from its initial state. -/
def runSpeech (sup : Bool) (evs : List SpeechEv) : SpeechState :=
  evs.foldl speechStep (initSpeech sup)

/-- A booth state with one completed take, used as a concrete input. -/
def exBooth : Studio :=
  { initStudio with
    recordings := [{ id := "7", url := "blob:0", createdAt := 7, duration := 4 }]
    urlCounter := 1 }

/-- A booth state with two completed takes, used as a concrete input. -/
def exBooth2 : Studio :=
  { initStudio with
    recordings :=
      [{ id := "a", url := "blob:0", createdAt := 1, duration := 5 },
       { id := "b", url := "blob:1", createdAt := 2, duration := 6 }]
    urlCounter := 2 }

/-- Invariant of the preview controller: the platform queue never holds
more than one utterance, and whenever the speaking flag is set some
utterance has received its start event and not yet its end or error
event. -/
def SpeechInv (s : SpeechState) : Prop :=
  s.pending.length ≤ 1 ∧
    (s.speaking = true → ∃ u, u ∈ s.started ∧ u ∉ s.finished)

theorem countTokensAux_of_all_space {cs : List Char}
    (h : ∀ c ∈ cs, jsIsSpace c = true) (b : Bool) : countTokensAux b cs = 0 := by
  induction cs generalizing b with
  | nil => rfl
  | cons c cs ih =>
    rw [countTokensAux, if_pos (h c (List.mem_cons_self c cs))]
    exact ih (fun x hx => h x (List.mem_cons_of_mem c hx)) false

theorem countTokensAux_append_space (cs : List Char) {suf : List Char}
    (h : ∀ c ∈ suf, jsIsSpace c = true) (b : Bool) :
    countTokensAux b (cs ++ suf) = countTokensAux b cs := by
  induction cs generalizing b with
  | nil =>
    rw [List.nil_append]
    exact countTokensAux_of_all_space h b
  | cons c cs ih =>
    rw [List.cons_append, countTokensAux, countTokensAux]
    by_cases hc : jsIsSpace c = true
    · rw [if_pos hc, if_pos hc, ih false]
    · rw [if_neg hc, if_neg hc, ih true]

theorem countTokensAux_dropWhile (cs : List Char) :
    countTokensAux false (cs.dropWhile jsIsSpace) = countTokensAux false cs := by
  induction cs with
  | nil => rfl
  | cons c cs ih =>
    by_cases hc : jsIsSpace c = true
    · rw [List.dropWhile_cons_of_pos hc, ih, countTokensAux, if_pos hc]
    · rw [List.dropWhile_cons_of_neg hc]

theorem trim_decomp (cs : List Char) :
    ∃ suf, cs.dropWhile jsIsSpace = trimChars cs ++ suf ∧
      ∀ c ∈ suf, jsIsSpace c = true := by
  refine ⟨((cs.dropWhile jsIsSpace).reverse.takeWhile jsIsSpace).reverse, ?_, ?_⟩
  · conv_lhs => rw [← (cs.dropWhile jsIsSpace).reverse_reverse]
    rw [trimChars]
    conv_lhs =>
      rw [← List.takeWhile_append_dropWhile (p := jsIsSpace)
        (l := (cs.dropWhile jsIsSpace).reverse)]
    rw [List.reverse_append]
  · intro c hc
    exact List.mem_takeWhile_imp (List.mem_reverse.mp hc)

theorem countTokens_trim (cs : List Char) :
    countTokens (trimChars cs) = countTokens cs := by
  obtain ⟨suf, hdec, hsp⟩ := trim_decomp cs
  have h1 : countTokens cs = countTokensAux false (cs.dropWhile jsIsSpace) :=
    (countTokensAux_dropWhile cs).symm
  rw [h1, hdec, countTokensAux_append_space _ hsp]
  rfl

theorem trimChars_eq_nil_iff (cs : List Char) :
    trimChars cs = [] ↔ ∀ c ∈ cs, jsIsSpace c = true := by
  rw [trimChars, List.reverse_eq_nil_iff, List.dropWhile_eq_nil_iff]
  constructor
  · intro h c hc
    have hc2 : c ∈ List.takeWhile jsIsSpace cs ++ List.dropWhile jsIsSpace cs := by
      rw [List.takeWhile_append_dropWhile]
      exact hc
    rcases List.mem_append.mp hc2 with hmem | hmem
    · exact List.mem_takeWhile_imp hmem
    · exact h c (List.mem_reverse.mpr hmem)
  · intro h c hc
    exact h c ((List.dropWhile_sublist jsIsSpace).subset (List.mem_reverse.mp hc))

theorem countTokens_pos {cs : List Char}
    (h : ¬ ∀ c ∈ cs, jsIsSpace c = true) : 1 ≤ countTokens cs := by
  induction cs with
  | nil => exact absurd (fun c hc => absurd hc (List.not_mem_nil c)) h
  | cons c cs ih =>
    rw [countTokens, countTokensAux]
    by_cases hc : jsIsSpace c = true
    · rw [if_pos hc]
      refine ih fun hall => h fun x hx => ?_
      rcases List.mem_cons.mp hx with rfl | hx
      · exact hc
      · exact hall x hx
    · rw [if_neg hc]
      simp

/-- C8: for every script string S, wordCount(S) equals 0 exactly when S is
empty or consists entirely of whitespace; otherwise wordCount(S) equals
the number of whitespace-delimited tokens of S (trimming does not change
that number). -/
theorem C8_wordCount_zero_iff (S : String) :
    (wordCount S = 0 ↔ ∀ c ∈ S.data, jsIsSpace c = true) ∧
    ((¬ ∀ c ∈ S.data, jsIsSpace c = true) → wordCount S = countTokens S.data) := by
  constructor
  · constructor
    · intro h0
      by_contra hall
      have htr : trimChars S.data ≠ [] :=
        fun he => hall ((trimChars_eq_nil_iff S.data).mp he)
      rw [wordCount, if_neg htr, countTokens_trim] at h0
      have := countTokens_pos hall
      omega
    · intro hall
      rw [wordCount, if_pos ((trimChars_eq_nil_iff S.data).mpr hall)]
  · intro hall
    have htr : trimChars S.data ≠ [] :=
      fun he => hall ((trimChars_eq_nil_iff S.data).mp he)
    rw [wordCount, if_neg htr, countTokens_trim]

/-- Witness for C8 at a script with surrounding whitespace. -/
theorem C8_wordCount_zero_iff_witness :
    wordCount "  one two  " = countTokens "  one two  ".data :=
  (C8_wordCount_zero_iff "  one two  ").2 (by decide)

theorem find?_of_mem_nodup {l : List Recording} {r : Recording} {id : String}
    (hnd : (l.map Recording.id).Nodup) (hr : r ∈ l) (hid : r.id = id) :
    l.find? (fun item => item.id == id) = some r := by
  induction l with
  | nil => cases hr
  | cons a l ih =>
    rw [List.map_cons, List.nodup_cons] at hnd
    rcases List.mem_cons.mp hr with rfl | hmem
    · rw [List.find?_cons_of_pos _ (by simp [hid])]
    · have hane : (a.id == id) = false := by
        refine beq_eq_false_iff_ne.mpr fun he => hnd.1 ?_
        exact List.mem_map.mpr ⟨r, hmem, hid.trans he.symm⟩
      rw [List.find?_cons_of_neg _ (by simp [hane])]
      exact ih hnd.2 hmem

theorem filter_ne_eq_erase {l : List Recording} {r : Recording} {id : String}
    (hnd : (l.map Recording.id).Nodup) (hr : r ∈ l) (hid : r.id = id) :
    l.filter (fun item => item.id != id) = l.erase r := by
  induction l with
  | nil => cases hr
  | cons a l ih =>
    rw [List.map_cons, List.nodup_cons] at hnd
    rcases List.mem_cons.mp hr with rfl | hmem
    · rw [List.filter_cons_of_neg (by simp [hid]), List.erase_cons_head]
      refine List.filter_eq_self.mpr fun x hx => ?_
      refine bne_iff_ne.mpr fun he => hnd.1 ?_
      exact List.mem_map.mpr ⟨x, hx, he.trans hid.symm⟩
    · have hane : a.id ≠ id := by
        intro he
        exact hnd.1 (List.mem_map.mpr ⟨r, hmem, hid.trans he.symm⟩)
      have harne : a ≠ r := fun he => hane (by rw [he, hid])
      rw [List.filter_cons_of_pos (by simp [hane]),
        List.erase_cons_tail (by simp [harne]), ih hnd.2 hmem]

/-- C4: with pairwise distinct identifiers (the data-model requirement),
deleteRecording removes exactly the entry carrying the requested
identifier and revokes its URL exactly once, and when no entry carries
the identifier it leaves the list unchanged and revokes nothing. -/
theorem C4_deleteRecording_correct (s : Studio) (id : String)
    (hnd : (s.recordings.map Recording.id).Nodup) :
    (∀ r, r ∈ s.recordings → r.id = id →
        (deleteRecording id s).recordings = s.recordings.erase r ∧
        (deleteRecording id s).revoked = s.revoked ++ [r.url]) ∧
    ((∀ r ∈ s.recordings, r.id ≠ id) →
        (deleteRecording id s).recordings = s.recordings ∧
        (deleteRecording id s).revoked = s.revoked) := by
  constructor
  · intro r hr hid
    rw [deleteRecording, find?_of_mem_nodup hnd hr hid]
    exact ⟨filter_ne_eq_erase hnd hr hid, rfl⟩
  · intro hnone
    have hfind : s.recordings.find? (fun item => item.id == id) = none :=
      List.find?_eq_none.mpr fun x hx => by simpa using hnone x hx
    have hfilter : s.recordings.filter (fun item => item.id != id) = s.recordings :=
      List.filter_eq_self.mpr fun x hx => bne_iff_ne.mpr (hnone x hx)
    rw [deleteRecording, hfind, hfilter]
    exact ⟨rfl, by simp⟩

/-- Witness for C4: deleting the first take of a two-take state. -/
theorem C4_deleteRecording_correct_witness :
    (deleteRecording "a" exBooth2).recordings =
      exBooth2.recordings.erase
        { id := "a", url := "blob:0", createdAt := 1, duration := 5 } ∧
    (deleteRecording "a" exBooth2).revoked = [] ++ ["blob:0"] :=
  (C4_deleteRecording_correct exBooth2 "a" (by decide)).1
    { id := "a", url := "blob:0", createdAt := 1, duration := 5 }
    (by decide) rfl

/-- C6: when the microphone request fails while idle, the handler catches
the failure (the diagnostic goes to the console, outside the controller
state) and the whole controller state is unchanged, so the booth stays in
the idle state with the recording flag clear. -/
theorem C6_mic_failure_noop (now : Nat) (s : Studio)
    (h : s.isRecording = false) : toggleRecording false now s = s := by
  cases hsup : s.recordingSupported <;> simp [toggleRecording, h, hsup]

/-- Witness for C6 at the mounted initial state. -/
theorem C6_mic_failure_noop_witness : toggleRecording false 5 initStudio = initStudio :=
  C6_mic_failure_noop 5 initStudio rfl

/-- C9: invoking the stop operation while the recording flag is clear is
a no-op on the whole booth state.  In the source the stop logic is the
branch of toggleRecording guarded by the recording flag, so it cannot run
while the flag is clear. -/
theorem C9_stop_when_idle_noop (now : Nat) (s : Studio)
    (h : s.isRecording = false) : stopRecording now s = s := by
  cases hsup : s.recordingSupported <;> simp [stopRecording, h, hsup]

/-- Witness for C9 at a state holding one completed take. -/
theorem C9_stop_when_idle_noop_witness : stopRecording 9 exBooth = exBooth :=
  C9_stop_when_idle_noop 9 exBooth rfl

/-- Counterexample to C2 as stated: from an idle, supported state holding
one take whose identifier is the string of timestamp 7, a successful
start at time 3 followed by a stop at time 7 produces a new take whose
time-based identifier equals the identifier of the take already in the
list, so the new identifier is not distinct from every prior one. -/
theorem C2_id_collision :
    exBooth.isRecording = false ∧ exBooth.recordingSupported = true ∧
    (recorderOnStop 7 (toggleRecording true 7 (toggleRecording true 3 exBooth))).recordings.map
        Recording.id = ["7", "7"] ∧
    ¬ ((recorderOnStop 7 (toggleRecording true 7
        (toggleRecording true 3 exBooth))).recordings.map Recording.id).Nodup := by
  decide

/-- C2 (amended): starting at a nonzero time t1 and stopping at time t2
adds exactly one take at the front of the list, with duration t2 - t1,
creation time t2 and the time-based identifier of t2, and that identifier
differs from every prior identifier provided no prior take carries the
identifier of timestamp t2 (identifiers are the stop timestamps, so two
stops in the same millisecond collide). -/
theorem C2_take_prepended (s : Studio) (t1 t2 : Nat)
    (hsup : s.recordingSupported = true) (hrec : s.isRecording = false)
    (ht1 : t1 ≠ 0) (hid : ∀ r ∈ s.recordings, r.id ≠ toString t2) :
    (recorderOnStop t2 (toggleRecording true t2 (toggleRecording true t1 s))).recordings =
      { id := toString t2, url := "blob:" ++ toString s.urlCounter,
        createdAt := t2, duration := t2 - t1 } :: s.recordings ∧
    ∀ r ∈ s.recordings, toString t2 ≠ r.id := by
  refine ⟨?_, fun r hr => (hid r hr).symm⟩
  simp [toggleRecording, recorderOnStop, hsup, hrec, ht1]

/-- Witness for C2 at the concrete two-take run of the collision setup
but with a fresh stop timestamp. -/
theorem C2_take_prepended_witness :
    (recorderOnStop 9 (toggleRecording true 9 (toggleRecording true 3 exBooth))).recordings =
      { id := "9", url := "blob:1", createdAt := 9, duration := 6 } :: exBooth.recordings :=
  (C2_take_prepended exBooth 3 9 rfl rfl (by decide) (by decide)).1

/-- C1: the double-release run.  Two takes are recorded (times 1 to 2 and
10 to 12) and then the view unmounts; no take is ever deleted.  The URL
of the first take is revoked twice in total, and it has already been
revoked at a point where the take is still in the recordings list,
because the recordings effect cleanup re-runs on every change of the
recordings array rather than only at teardown. -/
theorem C1_first_take_revoked_twice :
    (unmountStudio (runBooth c1trace)).revoked.count "blob:0" = 2 ∧
    "blob:0" ∈ (runBooth c1trace).revoked ∧
    (∃ r ∈ (runBooth c1trace).recordings, r.url = "blob:0") := by
  decide

theorem speechStep_inv {s : SpeechState} (h : SpeechInv s) (e : SpeechEv) :
    SpeechInv (speechStep s e) := by
  obtain ⟨hlen, hsp⟩ := h
  cases e with
  | previewEv script =>
    rw [speechStep, speak]
    by_cases hsup : (!s.supported) = true
    · rw [if_pos hsup]
      exact ⟨hlen, hsp⟩
    · rw [if_neg hsup]
      by_cases htr : trimChars script.data = []
      · rw [if_pos htr]
        exact ⟨hlen, hsp⟩
      · rw [if_neg htr]
        exact ⟨by simp [synthEnqueue, synthCancel], hsp⟩
  | stopEv =>
    exact ⟨by simp [speechStep, cancelSpeech, synthCancel], by simp [speechStep, cancelSpeech, synthCancel]⟩
  | startEv u =>
    rw [speechStep]
    by_cases hg : u ∈ s.pending ∧ u ∉ s.started ∧ u ∉ s.finished
    · rw [if_pos hg]
      exact ⟨hlen, fun _ => ⟨u, List.mem_cons_self u s.started, hg.2.2⟩⟩
    · rw [if_neg hg]
      exact ⟨hlen, hsp⟩
  | endEv u =>
    rw [speechStep]
    by_cases hg : u ∈ s.started ∧ u ∉ s.finished
    · rw [if_pos hg]
      refine ⟨le_trans (List.Sublist.length_le (List.erase_sublist u s.pending)) hlen, ?_⟩
      intro hcontra
      simp at hcontra
    · rw [if_neg hg]
      exact ⟨hlen, hsp⟩
  | errorEv u =>
    rw [speechStep]
    by_cases hg : u < s.nextId ∧ u ∉ s.finished
    · rw [if_pos hg]
      refine ⟨le_trans (List.Sublist.length_le (List.erase_sublist u s.pending)) hlen, ?_⟩
      intro hcontra
      simp at hcontra
    · rw [if_neg hg]
      exact ⟨hlen, hsp⟩

theorem foldl_speech_inv (evs : List SpeechEv) (s : SpeechState)
    (h : SpeechInv s) : SpeechInv (evs.foldl speechStep s) := by
  induction evs generalizing s with
  | nil => exact h
  | cons e evs ih => exact ih _ (speechStep_inv h e)

theorem runSpeech_inv (sup : Bool) (evs : List SpeechEv) :
    SpeechInv (runSpeech sup evs) :=
  foldl_speech_inv evs (initSpeech sup)
    ⟨by simp [initSpeech], by simp [initSpeech]⟩

/-- C5: in every reachable state of the preview controller at most one
utterance is queued or playing, the speaking flag is set only while some
utterance has started and not yet ended or errored, and a preview call
whose guards pass always cancels the platform queue before handing over
exactly the one new utterance. -/
theorem C5_single_utterance (sup : Bool) (evs : List SpeechEv) :
    (runSpeech sup evs).pending.length ≤ 1 ∧
    ((runSpeech sup evs).speaking = true →
        ∃ u, u ∈ (runSpeech sup evs).started ∧ u ∉ (runSpeech sup evs).finished) ∧
    (∀ script, (runSpeech sup evs).supported = true →
        trimChars script.data ≠ [] →
        (speak script (runSpeech sup evs)).pending = [(runSpeech sup evs).nextId]) := by
  obtain ⟨hlen, hsp⟩ := runSpeech_inv sup evs
  refine ⟨hlen, hsp, fun script hs htr => ?_⟩
  simp [speak, synthEnqueue, synthCancel, hs, htr]

/-- Witness for C5: after a preview and its start event, the queue holds
at most one utterance, and a second preview supersedes it, leaving
exactly the new utterance queued. -/
theorem C5_single_utterance_witness :
    (runSpeech true [SpeechEv.previewEv "hi", SpeechEv.startEv 0]).pending.length ≤ 1 ∧
    (speak "bye" (runSpeech true [SpeechEv.previewEv "hi", SpeechEv.startEv 0])).pending =
      [(runSpeech true [SpeechEv.previewEv "hi", SpeechEv.startEv 0]).nextId] :=
  ⟨(C5_single_utterance true [SpeechEv.previewEv "hi", SpeechEv.startEv 0]).1,
   (C5_single_utterance true [SpeechEv.previewEv "hi", SpeechEv.startEv 0]).2.2
     "bye" (by decide) (by decide)⟩

/-- Counterexample to C3 as stated: at word count 2 and rate 0 the source
expression shows Infinity, not 0, because the division yields a positive
infinity, which is truthy and passes the logical-or-with-zero guard
untouched (the guard only catches the NaN arising from 0 divided by 0). -/
theorem C3_rate_zero_shows_infinity :
    estSecs 2 0 = "Infinity" ∧ claimedEstSecs 2 0 = "0.0" ∧
    estSecs 2 0 ≠ claimedEstSecs 2 0 := by
  have h1 : estSecs 2 0 = "Infinity" := by
    simp only [estSecs, jsDiv, orZero, toFixed1]
    norm_num
  have h2 : claimedEstSecs 2 0 = "0.0" := by
    simp only [claimedEstSecs, toFixed1Q, toFixed1Pos]
    norm_num
    decide
  refine ⟨h1, h2, ?_⟩
  rw [h1, h2]
  decide

/-- C3 (amended): for a nonzero rate the display is the word count
divided by the rate to one decimal place; at rate 0 the display is 0.0
only when the word count is also 0, and Infinity when the word count is
positive; and in the scenario script Hello world with rate 1 the word
count is 2 and the display is 2.0.  (Finite arithmetic is modelled with
exact rationals.) -/
theorem C3_estimated_seconds :
    (∀ (wc : Nat) (r : ℚ), r ≠ 0 → estSecs wc r = toFixed1Q ((wc : ℚ) / r)) ∧
    (∀ wc : Nat, 0 < wc → estSecs wc 0 = "Infinity") ∧
    estSecs 0 0 = "0.0" ∧
    wordCount "Hello world" = 2 ∧
    estSecs (wordCount "Hello world") 1 = "2.0" := by
  refine ⟨?_, ?_, ?_, ?_, ?_⟩
  · intro wc r hr
    by_cases hq : (wc : ℚ) / r = 0
    · simp only [estSecs, jsDiv, orZero, toFixed1, if_neg hr, if_pos hq]
      rw [hq]
    · simp only [estSecs, jsDiv, orZero, toFixed1, if_neg hr, if_neg hq]
  · intro wc hwc
    have h0 : ((wc : ℚ) = 0) = False := by
      simp only [eq_iff_iff, iff_false]
      exact_mod_cast Nat.pos_iff_ne_zero.mp hwc
    have hpos : (0 : ℚ) < (wc : ℚ) := by exact_mod_cast hwc
    simp [estSecs, jsDiv, orZero, toFixed1, h0, hpos]
  · simp only [estSecs, jsDiv, orZero, toFixed1, toFixed1Q, toFixed1Pos]
    norm_num
    decide
  · decide
  · have hwc : wordCount "Hello world" = 2 := by decide
    rw [hwc]
    simp only [estSecs, jsDiv, orZero, toFixed1, toFixed1Q, toFixed1Pos]
    norm_num
    decide

/-- Witness for C3 at word count 4 and rate 2. -/
theorem C3_estimated_seconds_witness :
    estSecs 4 2 = toFixed1Q ((4 : ℚ) / 2) :=
  C3_estimated_seconds.1 4 2 (by norm_num)

theorem fdiv_eq_specRoundSec (d : Int) :
    (2 * d + 1000).fdiv 2000 = specRoundSec d := by
  rw [Int.fdiv_eq_ediv _ (by norm_num), specRoundSec]
  have h : (d : ℚ) / 1000 + 1 / 2 = ((2 * d + 1000 : ℤ) : ℚ) / ((2000 : ℕ) : ℚ) := by
    push_cast
    ring
  rw [h, Rat.floor_intCast_div_natCast]
  norm_num

theorem padStart2_len_two : ∀ n : Nat, n < 100 → (padStart2 (toString n)).length = 2 := by
  decide

/-- C7: for every nonnegative duration d the formatter prints M:SS where
SS is the zero-padded two-digit representation of round(d / 1000) mod 60
and M is the quotient of round(d / 1000) by 60, with rounding half
toward positive infinity; in particular 125000 ms prints as 2:05. -/
theorem C7_formattedDuration_shape (d : Int) (hd : 0 ≤ d) :
    formattedDuration d =
      toString ((specRoundSec d).toNat / 60) ++ ":" ++
        padStart2 (toString ((specRoundSec d).toNat % 60)) ∧
    (padStart2 (toString ((specRoundSec d).toNat % 60))).length = 2 ∧
    formattedDuration 125000 = "2:05" := by
  have hb := fdiv_eq_specRoundSec d
  have hnn : 0 ≤ (2 * d + 1000).fdiv 2000 :=
    Int.fdiv_nonneg (by omega) (by norm_num)
  have h0 : max 0 (specRoundSec d) = specRoundSec d := max_eq_right (hb ▸ hnn)
  refine ⟨?_, ?_, by decide⟩
  · simp only [formattedDuration, hb, h0]
  · exact padStart2_len_two _
      (lt_trans (Nat.mod_lt _ (by norm_num)) (by norm_num))

/-- Witness for C7 at 125000 ms. -/
theorem C7_formattedDuration_shape_witness :
    formattedDuration 125000 =
      toString ((specRoundSec 125000).toNat / 60) ++ ":" ++
        padStart2 (toString ((specRoundSec 125000).toNat % 60)) :=
  (C7_formattedDuration_shape 125000 (by norm_num)).1

/-- C10: for every negative duration the clamp at zero makes the
formatter total, printing 0:00 rather than a malformed display. -/
theorem C10_negative_duration_clamped (d : Int) (hd : d < 0) :
    formattedDuration d = "0:00" := by
  have hb := fdiv_eq_specRoundSec d
  have hle : specRoundSec d ≤ 0 := by
    have hlt : ((d : ℚ) / 1000 + 1 / 2) < 1 := by
      have hdq : (d : ℚ) < 0 := by exact_mod_cast hd
      have : (d : ℚ) / 1000 < 0 := div_neg_of_neg_of_pos hdq (by norm_num)
      linarith
    have := Int.floor_lt.mpr (by push_cast; linarith : (d : ℚ) / 1000 + 1 / 2 < ((1 : ℤ) : ℚ))
    rw [specRoundSec]
    omega
  have h0 : max 0 ((2 * d + 1000).fdiv 2000) = 0 := by
    rw [hb]
    exact max_eq_left hle
  simp only [formattedDuration, h0]
  decide

/-- Witness for C10 at -1 ms. -/
theorem C10_negative_duration_clamped_witness : formattedDuration (-1) = "0:00" :=
  C10_negative_duration_clamped (-1) (by norm_num)
